import Mathlib

/-!
# Verification of the shinycast scheduler core

A shallow embedding of the hot-reloadable recurring-job scheduler of the
`shinycast` repository:

* the schedule-expression model and compiler
  (`src/model/src/lib.rs`: `Interval`, `Adjustment`, `ScheduleConfiguration`,
  `ConfigSchedulerExt::new_job_from_config`),
* the Worker lifecycle and its hierarchical cancellation tokens
  (`src/worker/src/lib.rs`: `Worker::try_schedule`, `Worker::stop`),
* the spawned tick loop and the change-watcher task
  (`src/worker/src/lib.rs`, `src/app/src/main.rs`).

Machine mutation (`&mut self`, `&mut AsyncScheduler`) is embedded as explicit
state passing; `eyre::Result` / fallible closures become `Except`.
-/

namespace Shinycast

/-! ## Schedule expression model (src/model/src/lib.rs) -/

/-- `clokwerk::Interval`: recurrence unit (seconds/minutes/hours/days/weeks
with a multiplier, or a named weekday). The repository wraps it in
`pub struct Interval(pub clokwerk::Interval)`; the wrapper is transparent so we
embed the underlying enum directly. -/
inductive Interval where
  | Seconds (n : Nat)
  | Minutes (n : Nat)
  | Hours (n : Nat)
  | Days (n : Nat)
  | Weeks (n : Nat)
  | Monday
  | Tuesday
  | Wednesday
  | Thursday
  | Friday
  | Saturday
  | Sunday
  | Weekday
  deriving DecidableEq, Repr

/-- `chrono::NaiveTime` as carried by `Adjustment::At`: a time of day.
Only carried through the compiler, never computed with. -/
structure NaiveTime where
  hour : Nat
  minute : Nat
  second : Nat
  deriving DecidableEq, Repr

/-- `Adjustment` from src/model/src/lib.rs lines 26-33. -/
inductive Adjustment where
  | At (t : NaiveTime)
  | Plus (i : Interval)
  | AndEvery (i : Interval)
  | Count (n : Nat)
  | RepeatingEvery (i : Interval) (n : Nat)
  deriving DecidableEq, Repr

/-- `ScheduleConfiguration` from src/model/src/lib.rs lines 57-61:
a base interval plus an optional ordered adjustment list. -/
structure ScheduleConfiguration where
  base : Interval
  adjustment : Option (List Adjustment)
  deriving DecidableEq, Repr

/-- Modelled from the spec: one cadence of a clokwerk job (the clokwerk crate
is an external dependency, not under src/). A cadence is a base `Interval`
optionally refined by time-of-day constraints (`at_time`) and cycle-start
offsets (`plus`); `and_every` opens an additional independent cadence. -/
structure Cadence where
  base : Interval
  atTimes : List NaiveTime
  offsets : List Interval
  deriving DecidableEq, Repr

/-- Modelled from the spec: the builder state of a `clokwerk::AsyncJob`
(the clokwerk crate is external to src/). `cadences` is nonempty by
construction (`every` seeds the first); `countCap` is the execution cap set by
`count`; `subCadence` is the sub-firing set by `repeating_every(..).times(..)`. -/
structure AsyncJob where
  cadences : List Cadence
  countCap : Option Nat
  subCadence : Option (Interval × Nat)
  deriving DecidableEq, Repr

/-- A fresh single-cadence job as produced by `AsyncScheduler::every(i)`. -/
def AsyncJob.every (i : Interval) : AsyncJob :=
  { cadences := [{ base := i, atTimes := [], offsets := [] }]
    countCap := none
    subCadence := none }

/-- Replace the cadence currently being built (the last one). -/
def AsyncJob.mapLastCadence (j : AsyncJob) (f : Cadence → Cadence) : AsyncJob :=
  { j with
    cadences := match j.cadences.reverse with
      | [] => []
      | c :: rest => (f c :: rest).reverse }

/-- Modelled from the spec: `at_time(t)` constrains the cadence being built to
fire at time-of-day `t`. -/
def AsyncJob.at_time (j : AsyncJob) (t : NaiveTime) : AsyncJob :=
  j.mapLastCadence fun c => { c with atTimes := c.atTimes ++ [t] }

/-- Modelled from the spec: `plus(i)` offsets the cycle start of the cadence
being built by interval `i`. -/
def AsyncJob.plus (j : AsyncJob) (i : Interval) : AsyncJob :=
  j.mapLastCadence fun c => { c with offsets := c.offsets ++ [i] }

/-- Modelled from the spec: `and_every(i)` adds a second, independently
evaluated cadence on which the job also fires. -/
def AsyncJob.and_every (j : AsyncJob) (i : Interval) : AsyncJob :=
  { j with cadences := j.cadences ++ [{ base := i, atTimes := [], offsets := [] }] }

/-- Modelled from the spec: `count(n)` caps total executions at `n`. -/
def AsyncJob.count (j : AsyncJob) (n : Nat) : AsyncJob :=
  { j with countCap := some n }

/-- Modelled from the spec: the intermediate value of
`repeating_every(i)`, awaiting `.times(n)`. -/
structure RepeatingJob where
  job : AsyncJob
  interval : Interval
  deriving DecidableEq, Repr

/-- Modelled from the spec: `repeating_every(i)` starts a sub-cadence of `i`. -/
def AsyncJob.repeating_every (j : AsyncJob) (i : Interval) : RepeatingJob :=
  { job := j, interval := i }

/-- Modelled from the spec: `.times(n)` repeats the pending sub-cadence `n`
times within each base cycle. -/
def RepeatingJob.times (r : RepeatingJob) (n : Nat) : AsyncJob :=
  { r.job with subCadence := some (r.interval, n) }

/-- The timezone a Worker is constructed with. The repository only ever uses
`chrono::Utc` (src/app/src/main.rs), with a TODO about making it an option. -/
inductive Tz where
  | utc
  deriving DecidableEq, Repr

/-- `clokwerk::AsyncScheduler`: the ordered collection of compiled jobs of one
Worker generation, with the Worker's fixed timezone. -/
structure AsyncScheduler where
  tz : Tz
  jobs : List AsyncJob
  deriving DecidableEq, Repr

/-- `AsyncScheduler::with_tz(tz)`: a fresh scheduler with no jobs. -/
def AsyncScheduler.with_tz (tz : Tz) : AsyncScheduler :=
  { tz := tz, jobs := [] }

/-- The match arm dispatch inside the `for adj in adjustments` loop of
`new_job_from_config` (src/model/src/lib.rs lines 78-86). -/
def applyAdjustment (job : AsyncJob) : Adjustment → AsyncJob
  | .At x => job.at_time x
  | .Plus x => job.plus x
  | .AndEvery x => job.and_every x
  | .Count x => job.count x
  | .RepeatingEvery x y => (job.repeating_every x).times y

/-- `ConfigSchedulerExt::new_job_from_config` (src/model/src/lib.rs lines
74-90): `self.every(c.base.0)` registers a fresh job on the scheduler and
the loop refines it in place through the returned mutable reference; the net
effect is that the scheduler gains one job built by folding the adjustments
left-to-right. The Rust signature returns `&mut AsyncJob` — there is no error
channel and no validation. -/
def new_job_from_config (s : AsyncScheduler) (c : ScheduleConfiguration) :
    AsyncScheduler :=
  let job := AsyncJob.every c.base
  let job := match c.adjustment with
    | some adjustments => adjustments.foldl applyAdjustment job
    | none => job
  { s with jobs := s.jobs ++ [job] }

/-! ## Cancellation tokens (tokio_util::sync::CancellationToken)

`CancellationToken` is hierarchical: cancelling a token cancels all its
descendants; a child token derived with `child_token()` is a fresh,
not-yet-cancelled node under its parent. We embed the token arena as a list of
entries indexed by creation order: entry `i` records the parent id (if any)
and whether `cancel()` was called directly on token `i`. A token is observed
cancelled when it or any ancestor was directly cancelled. Parents are always
created before children, so every parent id is smaller than its child's id. -/

/-- One token in the arena: its parent (root tokens have none) and whether
`cancel()` was invoked directly on it. -/
structure TokenEntry where
  parent : Option Nat
  cancelledDirect : Bool
  deriving DecidableEq, Repr

/-- The arena of all cancellation tokens created so far; index = token id. -/
structure TokenStore where
  tokens : List TokenEntry
  deriving DecidableEq, Repr

/-- `CancellationToken::new()`: an arena holding one fresh root token, id 0. -/
def TokenStore.withRoot : TokenStore :=
  { tokens := [{ parent := none, cancelledDirect := false }] }

/-- `parent.child_token()`: append a fresh, uncancelled token whose parent is
`p`; returns the new arena and the new token's id. -/
def TokenStore.childToken (st : TokenStore) (p : Nat) : TokenStore × Nat :=
  ({ tokens := st.tokens ++ [{ parent := some p, cancelledDirect := false }] },
   st.tokens.length)

/-- `token.cancel()`: mark token `t` as directly cancelled. -/
def TokenStore.cancelToken (st : TokenStore) (t : Nat) : TokenStore :=
  match st.tokens[t]? with
  | some e => { tokens := st.tokens.set t { e with cancelledDirect := true } }
  | none => st

/-- Ancestor-chain cancellation check, fuelled: with well-formed parents
(strictly smaller than the child id) fuel `t + 1` always suffices for token
`t`. -/
def TokenStore.isCancelledFuel (st : TokenStore) : Nat → Nat → Bool
  | 0, _ => false
  | fuel + 1, t =>
    match st.tokens[t]? with
    | none => false
    | some e =>
      e.cancelledDirect ||
        match e.parent with
        | none => false
        | some p => st.isCancelledFuel fuel p

/-- `token.cancelled()` has fired: the token or one of its ancestors was
directly cancelled. -/
def TokenStore.isCancelled (st : TokenStore) (t : Nat) : Bool :=
  st.isCancelledFuel (t + 1) t

/-- Parent ids are strictly smaller than their children's ids: true of every
arena reachable through `withRoot` / `childToken` / `cancelToken`. -/
def TokenStore.WF (st : TokenStore) : Prop :=
  ∀ (i : Nat) (e : TokenEntry), st.tokens[i]? = some e →
    ∀ p, e.parent = some p → p < i

/-! ## Worker (src/worker/src/lib.rs)

`Worker { source, cancel_token_root, timezone, current_token }`. The `source`
closure is fixed at construction; since the struct's other fields are plain
data we keep the closure as an explicit argument to `try_schedule` and carry
the data fields in `WorkerSys`, together with the token arena and the tokens
of the tick-loop tasks spawned so far (`tokio::spawn` at line 44). -/

/-- The builder error: `eyre::Report` as produced by the builder closures
(`model::Error` wraps sled and serde_json failures). -/
inductive Err where
  | storage
  | serialization
  | configuration
  | podcastNotFound
  | configNotFound
  deriving DecidableEq, Repr

/-- The data fields of one `Worker` plus the surrounding runtime state:
the token arena and the tokens that spawned tick-loop tasks are bound to. -/
structure WorkerSys where
  store : TokenStore
  cancel_token_root : Nat
  timezone : Tz
  current_token : Option Nat
  loops : List Nat
  deriving DecidableEq, Repr

/-- `Worker::new(source, cancel_token_root, tz)` with a fresh root token, as
in src/app/src/main.rs lines 33-54: `current_token` starts `None`, no loop
spawned. -/
def WorkerSys.new (tz : Tz) : WorkerSys :=
  { store := TokenStore.withRoot
    cancel_token_root := 0
    timezone := tz
    current_token := none
    loops := [] }

/-- `Worker::stop` (src/worker/src/lib.rs lines 60-64): cancel the current
token if present; the `current_token` field itself is not modified. -/
def WorkerSys.stop (w : WorkerSys) : WorkerSys :=
  match w.current_token with
  | some token => { w with store := w.store.cancelToken token }
  | none => w

/-- `Worker::try_schedule` (src/worker/src/lib.rs lines 35-57): first
`self.stop()`; then build a fresh scheduler and run the source closure — its
error propagates via `?` (the state mutated so far persists, `&mut self`);
on success derive a child of the root token, store it as `current_token`, and
spawn the tick-loop task bound to that token. Returns the updated state
together with the `eyre::Result<()>`. -/
def WorkerSys.try_schedule (w : WorkerSys)
    (source : AsyncScheduler → Except Err AsyncScheduler) :
    WorkerSys × Except Err Unit :=
  let w := w.stop
  match source (AsyncScheduler.with_tz w.timezone) with
  | .error e => (w, .error e)
  | .ok _scheduler =>
    let (store, token) := w.store.childToken w.cancel_token_root
    let w := { w with
      store := store
      current_token := some token
      loops := w.loops ++ [token] }
    (w, .ok ())

/-- The tokens of spawned tick-loop tasks whose scope is not cancelled: the
loops still running. -/
def WorkerSys.runningLoops (w : WorkerSys) : List Nat :=
  w.loops.filter fun t => !(w.store.isCancelled t)

/-! ## The spawned tick loop (src/worker/src/lib.rs lines 44-55)

Each iteration is a `select!` between `token.cancelled()` and a 1-second
`tokio::time::sleep`; whichever resolves first decides the iteration. We
embed one run of the task as a function of the sequence of wait outcomes:
each element says which arm of the `select!` won that iteration. -/

/-- The fixed tick cadence, in seconds: `Duration::from_secs(1)`. -/
def tickCadenceSecs : Nat := 1

/-- Outcome of one `select!` wait: the scope's cancellation fired first, or
the 1-second sleep elapsed first. -/
inductive TickEvent where
  | cancelled
  | elapsed
  deriving DecidableEq, Repr

/-- Observable action of the tick-loop task. -/
inductive LoopAction where
  | advance
  | terminate
  deriving DecidableEq, Repr

/-- The actions the tick-loop task performs against a finite prefix of wait
outcomes: on `cancelled` it returns (terminates, no further iteration); on
`elapsed` it calls `scheduler.run_pending().await` exactly once and loops. -/
def tickLoopTrace : List TickEvent → List LoopAction
  | [] => []
  | .cancelled :: _ => [.terminate]
  | .elapsed :: rest => .advance :: tickLoopTrace rest

/-! ## The change watcher (src/app/src/main.rs lines 87-94)

`storage.watch_prefix("")` yields one event per mutation under the prefix;
the spawned task runs `while let Some(_) = (&mut sub).await` and calls
`podcast_worker.try_schedule().expect(..)` once per event. The event payload
(key and mutation kind) is bound to `_` and ignored. -/

/-- A sled change notification: the mutated key and the kind of mutation.
Carried only to show the watcher ignores both. -/
inductive ChangeKind where
  | insert
  | update
  | remove
  deriving DecidableEq, Repr

/-- Bytes (sled `IVec` / serialized JSON) as an opaque byte list. -/
abbrev Bytes : Type := List Nat

/-- One event from `watch_prefix`. -/
structure ChangeEvent where
  key : Bytes
  kind : ChangeKind

/-- The watcher task over a finite prefix of the notification stream:
for each notification, one `try_schedule` call; `expect` panics on error,
ending the task. Returns the final worker state, the number of
`try_schedule` calls made, and whether the task panicked. -/
def watchLoop (source : AsyncScheduler → Except Err AsyncScheduler) :
    List ChangeEvent → WorkerSys → WorkerSys × Nat × Bool
  | [], w => (w, 0, false)
  | _ :: rest, w =>
    match w.try_schedule source with
    | (w, .ok _) =>
      let next := watchLoop source rest w
      (next.1, next.2.1 + 1, next.2.2)
    | (w, .error _) => (w, 1, true)

/-! ## The podcast worker's builder closure (src/app/src/main.rs lines 62-85)

It scans the `podcasts` tree, keeps only entries whose read succeeded
(`filter_map(|r| r.ok())`) and whose bytes deserialize (`filter_map(|(_, p)|
serde_json::from_slice(&p).ok())`), and registers one job per podcast that
has an `update_schedule`. It ends with `Ok(())` unconditionally: read and
decode failures are dropped, never returned. -/

/-- `model::Source`: where a podcast feed comes from. -/
inductive PodSource where
  | Youtube (channel : String)
  deriving DecidableEq, Repr

/-- `model::Podcast` (src/model/src/lib.rs lines 105-116). -/
structure Podcast where
  name : String
  source : PodSource
  update_schedule : Option ScheduleConfiguration
  sponsorblock_categories : Option (List String)
  downloader_arguments : Option (List String)
  deriving DecidableEq, Repr

/-- The podcast worker's builder closure. `entries` is what
`storage.iter()` yields — each item a sled read result of (key, value) —
and `decode` is `serde_json::from_slice` for `Podcast`
(serde_json is external to src/, so the decoder is a parameter). -/
def podcastBuilder (entries : List (Except Err (Bytes × Bytes)))
    (decode : Bytes → Option Podcast) (s : AsyncScheduler) :
    AsyncScheduler × Except Err Unit :=
  let podcasts : List Podcast :=
    (entries.filterMap Except.toOption).filterMap fun kv => decode kv.2
  let s := podcasts.foldl
    (fun s podcast =>
      match podcast.update_schedule with
      | some run => new_job_from_config s run
      | none => s)
    s
  (s, .ok ())

/-! ## Spec-side compiler semantics (for the refinement claim)

Section 4.1 of the specification describes `compile` as: start from the base
Interval, then apply each Adjustment strictly in list order with a fixed
meaning per variant. The next two definitions transcribe those words, to be
compared against `new_job_from_config` above. -/

/-- The spec's per-adjustment meaning, written directly on the job state:
`At` adds a time-of-day constraint to the cadence being refined, `Plus` a
cycle-start offset, `AndEvery` an additional independent cadence, `Count` the
execution cap, `RepeatingEvery(i, n)` the sub-cadence of `i` repeated `n`
times. -/
def specApplyAdjustment (j : AsyncJob) : Adjustment → AsyncJob
  | .At t => j.mapLastCadence fun c => { c with atTimes := c.atTimes ++ [t] }
  | .Plus i => j.mapLastCadence fun c => { c with offsets := c.offsets ++ [i] }
  | .AndEvery i =>
    { j with cadences := j.cadences ++ [{ base := i, atTimes := [], offsets := [] }] }
  | .Count n => { j with countCap := some n }
  | .RepeatingEvery i n => { j with subCadence := some (i, n) }

/-- The spec's compiler: the base Interval as the initial recurrence, then the
adjustments folded left-to-right (an absent list meaning no refinement). -/
def specCompile (base : Interval) (adjs : List Adjustment) : AsyncJob :=
  adjs.foldl specApplyAdjustment (AsyncJob.every base)

/-! ## Observation sequences on one Worker

The program calls `try_schedule` and `stop` on a Worker in some order
(startup, watcher-triggered rebuilds, shutdown). To state the "at most one
active tick-loop at any time" invariant we close over every such sequence. -/

/-- One call made on a Worker: `try_schedule` with its builder closure, or
`stop`. -/
inductive WorkerOp where
  | trySchedule (source : AsyncScheduler → Except Err AsyncScheduler)
  | stop

/-- Execute a sequence of calls left-to-right (results of `try_schedule` are
discarded, as the watcher's `expect` path would on success). -/
def WorkerSys.runOps (w : WorkerSys) : List WorkerOp → WorkerSys
  | [] => w
  | op :: rest =>
    (match op with
      | .trySchedule source => (w.try_schedule source).1
      | .stop => w.stop).runOps rest

/-- The Worker state invariant: the token arena is well-formed, the root token
is a live parentless entry, the current token (when set) is a token created
after the root, and every spawned loop's token was created after the root and
is either the current one or already cancelled; loop tokens are pairwise
distinct. -/
def WorkerSys.Inv (w : WorkerSys) : Prop :=
  w.store.WF
  ∧ w.store.tokens[w.cancel_token_root]? =
      some { parent := none, cancelledDirect := false }
  ∧ (∀ t, w.current_token = some t →
      w.cancel_token_root < t ∧ t < w.store.tokens.length)
  ∧ (∀ l ∈ w.loops, w.cancel_token_root < l ∧ l < w.store.tokens.length ∧
      (w.current_token = some l ∨ w.store.isCancelled l = true))
  ∧ w.loops.Nodup

/-! ## Concrete inputs used to exercise the definitions -/

/-- A configuration whose adjustment list contains `Count(0)`. -/
def countZeroConfig : ScheduleConfiguration :=
  { base := .Minutes 5, adjustment := some [.Count 0] }

/-- A minimal stored schedule. -/
def demoSchedule : ScheduleConfiguration :=
  { base := .Minutes 5, adjustment := none }

/-- A stored podcast that carries an update schedule. -/
def demoPodcast : Podcast :=
  { name := "demo"
    source := .Youtube "chan"
    update_schedule := some demoSchedule
    sponsorblock_categories := none
    downloader_arguments := none }

/-- A decoder that recognises exactly the byte string `[1]`. -/
def demoDecode : Bytes → Option Podcast :=
  fun b => if b = [1] then some demoPodcast else none

/-- A scan in which the first entry reads fine and the second read fails. -/
def demoEntries : List (Except Err (Bytes × Bytes)) :=
  [.ok ([0], [1]), .error .storage]

/-! ## Two Workers over one shared token arena

In src/app/src/main.rs the `service_worker` and the `podcast_worker` are
constructed with clones of the same root `CancellationToken`
(`cancel_token_root`), so their child tokens are siblings in one arena. To
state that one Worker's rebuild does not affect another Worker's active
schedule, we split `Worker` into its per-Worker fields (`WorkerHandle`) and
the shared arena, and re-express `stop`/`try_schedule` over that pair —
the same code as `WorkerSys.stop`/`WorkerSys.try_schedule`, with the arena
passed separately. -/

/-- The per-Worker fields of `Worker` (src/worker/src/lib.rs lines 6-16)
without the shared token arena. -/
structure WorkerHandle where
  cancel_token_root : Nat
  timezone : Tz
  current_token : Option Nat
  loops : List Nat
  deriving DecidableEq, Repr

/-- `Worker::stop` over a shared arena: cancel the current token if present;
the handle's fields are untouched. -/
def WorkerHandle.stop (st : TokenStore) (w : WorkerHandle) :
    TokenStore × WorkerHandle :=
  match w.current_token with
  | some token => (st.cancelToken token, w)
  | none => (st, w)

/-- `Worker::try_schedule` over a shared arena: `stop`, run the builder, and
on success derive a child of this Worker's root and record the spawned
loop's token. -/
def WorkerHandle.try_schedule (st : TokenStore) (w : WorkerHandle)
    (source : AsyncScheduler → Except Err AsyncScheduler) :
    (TokenStore × WorkerHandle) × Except Err Unit :=
  let stopped := WorkerHandle.stop st w
  match source (AsyncScheduler.with_tz stopped.2.timezone) with
  | .error e => (stopped, .error e)
  | .ok _scheduler =>
    let child := stopped.1.childToken stopped.2.cancel_token_root
    ((child.1,
      { stopped.2 with
          current_token := some child.2
          loops := stopped.2.loops ++ [child.2] }),
     .ok ())

/-- The still-running loops of a handle, read against a given arena. -/
def WorkerHandle.runningLoops (st : TokenStore) (w : WorkerHandle) :
    List Nat :=
  w.loops.filter fun t => !(st.isCancelled t)

/-- `wB`'s spawned loops are siblings of anything `wA` would cancel: each of
`wB`'s loop tokens is a depth-one child of a parentless root token, and
neither it nor its root is `wA`'s current token. This is how main.rs lays the
two Workers out: both roots are the one process root, each current token a
distinct child of it. -/
def SiblingLoops (st : TokenStore) (wA wB : WorkerHandle) : Prop :=
  ∀ l ∈ wB.loops, ∃ p e ep,
    st.tokens[l]? = some e ∧ e.parent = some p ∧
    st.tokens[p]? = some ep ∧ ep.parent = none ∧
    0 < l ∧ l < st.tokens.length ∧ p < st.tokens.length ∧
    ∀ tA, wA.current_token = some tA → tA ≠ l ∧ tA ≠ p

/-- A shared arena as main.rs builds it: the process root (token 0) with one
child per Worker (token 1 for the podcast Worker, token 2 for the service
Worker). -/
def demoArena : TokenStore :=
  { tokens :=
      [{ parent := none, cancelledDirect := false },
       { parent := some 0, cancelledDirect := false },
       { parent := some 0, cancelledDirect := false }] }

/-- The Worker whose rebuild we exercise: currently bound to token 2. -/
def demoHandleA : WorkerHandle :=
  { cancel_token_root := 0
    timezone := .utc
    current_token := some 2
    loops := [2] }

/-- The bystander Worker: currently bound to token 1. -/
def demoHandleB : WorkerHandle :=
  { cancel_token_root := 0
    timezone := .utc
    current_token := some 1
    loops := [1] }

/-! ## Token-arena lemmas -/

theorem TokenStore.isCancelledFuel_succ (st : TokenStore) (fuel t : Nat) :
    st.isCancelledFuel (fuel + 1) t =
      match st.tokens[t]? with
      | none => false
      | some e =>
        e.cancelledDirect ||
          (match e.parent with
           | none => false
           | some p => st.isCancelledFuel fuel p) := rfl

theorem TokenStore.cancelToken_length (st : TokenStore) (t : Nat) :
    (st.cancelToken t).tokens.length = st.tokens.length := by
  unfold cancelToken
  cases h : st.tokens[t]? <;> simp

theorem TokenStore.cancelToken_getElem? (st : TokenStore) (t i : Nat) :
    (st.cancelToken t).tokens[i]? =
      if i = t then
        (st.tokens[t]?).map fun e => { e with cancelledDirect := true }
      else st.tokens[i]? := by
  unfold cancelToken
  cases h : st.tokens[t]? with
  | none =>
    by_cases hit : i = t
    · subst hit
      simp [h]
    · simp [hit]
  | some e =>
    have hlt : t < st.tokens.length := by
      by_contra hge
      rw [List.getElem?_eq_none (Nat.le_of_not_lt hge)] at h
      exact absurd h (by simp)
    by_cases hit : i = t
    · subst hit
      simp [List.getElem?_set_self hlt, h]
    · simp [List.getElem?_set_ne fun hh => hit hh.symm, hit]

theorem TokenStore.childToken_fst_length (st : TokenStore) (p : Nat) :
    (st.childToken p).1.tokens.length = st.tokens.length + 1 := by
  simp [childToken]

theorem TokenStore.childToken_snd (st : TokenStore) (p : Nat) :
    (st.childToken p).2 = st.tokens.length := rfl

theorem TokenStore.childToken_fst_getElem?_lt (st : TokenStore) (p i : Nat)
    (h : i < st.tokens.length) :
    (st.childToken p).1.tokens[i]? = st.tokens[i]? := by
  simp [childToken, List.getElem?_append, h]

theorem TokenStore.childToken_fst_getElem?_new (st : TokenStore) (p : Nat) :
    (st.childToken p).1.tokens[st.tokens.length]? =
      some { parent := some p, cancelledDirect := false } := by
  simp [childToken]

theorem TokenStore.withRoot_WF : TokenStore.withRoot.WF := by
  intro i e h p hp
  match i with
  | 0 =>
    simp [withRoot] at h
    rw [← h] at hp
    simp at hp
  | n + 1 =>
    simp [withRoot] at h

theorem TokenStore.WF.cancelToken {st : TokenStore} (hst : st.WF) (t : Nat) :
    (st.cancelToken t).WF := by
  intro i e h p hp
  rw [TokenStore.cancelToken_getElem?] at h
  by_cases hit : i = t
  · subst hit
    rw [if_pos rfl] at h
    cases he : st.tokens[i]? with
    | none => rw [he] at h; simp at h
    | some e0 =>
      rw [he] at h
      simp at h
      rw [← h] at hp
      exact hst i e0 he p hp
  · rw [if_neg hit] at h
    exact hst i e h p hp

theorem TokenStore.WF.childToken {st : TokenStore} (hst : st.WF) (p : Nat)
    (hp : p < st.tokens.length) : (st.childToken p).1.WF := by
  intro i e h q hq
  by_cases hlt : i < st.tokens.length
  · rw [TokenStore.childToken_fst_getElem?_lt st p i hlt] at h
    exact hst i e h q hq
  · have hile : st.tokens.length ≤ i := Nat.le_of_not_lt hlt
    unfold TokenStore.childToken at h
    rw [List.getElem?_append_right hile] at h
    cases hd : i - st.tokens.length with
    | zero =>
      rw [hd] at h
      simp at h
      rw [← h] at hq
      simp at hq
      omega
    | succ n =>
      rw [hd] at h
      simp at h

theorem TokenStore.isCancelledFuel_succ_none (st : TokenStore) (fuel t : Nat)
    (he : st.tokens[t]? = none) :
    st.isCancelledFuel (fuel + 1) t = false := by
  rw [TokenStore.isCancelledFuel_succ, he]

theorem TokenStore.isCancelledFuel_succ_some (st : TokenStore) (fuel t : Nat)
    (e : TokenEntry) (he : st.tokens[t]? = some e) :
    st.isCancelledFuel (fuel + 1) t =
      (e.cancelledDirect || e.parent.elim false (st.isCancelledFuel fuel)) := by
  rw [TokenStore.isCancelledFuel_succ, he]
  cases hpar : e.parent <;> simp [hpar]

/-- Cancelling one token never uncancels another: `isCancelledFuel` is
monotone under `cancelToken`. -/
theorem TokenStore.isCancelledFuel_cancelToken_mono (st : TokenStore) (t : Nat) :
    ∀ fuel x, st.isCancelledFuel fuel x = true →
      (st.cancelToken t).isCancelledFuel fuel x = true := by
  intro fuel
  induction fuel with
  | zero => intro x h; simp [TokenStore.isCancelledFuel] at h
  | succ f ih =>
    intro x h
    cases he : st.tokens[x]? with
    | none =>
      rw [TokenStore.isCancelledFuel_succ_none st f x he] at h
      exact absurd h (by simp)
    | some e =>
      rw [TokenStore.isCancelledFuel_succ_some st f x e he] at h
      have hce : (st.cancelToken t).tokens[x]? =
          some (if x = t then { e with cancelledDirect := true } else e) := by
        rw [TokenStore.cancelToken_getElem?]
        by_cases hxt : x = t
        · subst hxt
          rw [if_pos rfl, if_pos rfl, he]
          rfl
        · rw [if_neg hxt, if_neg hxt]
          exact he
      rw [TokenStore.isCancelledFuel_succ_some _ f x _ hce]
      by_cases hxt : x = t
      · subst hxt
        rw [if_pos rfl]
        simp
      · rw [if_neg hxt]
        cases hflag : e.cancelledDirect with
        | true => simp [hflag]
        | false =>
          rw [hflag] at h
          simp only [Bool.false_or] at h
          cases hpar : e.parent with
          | none =>
            rw [hpar] at h
            simp [Option.elim] at h
          | some pp =>
            rw [hpar] at h
            simp only [Option.elim] at h
            simp only [hflag, hpar, Option.elim, Bool.false_or]
            exact ih pp h

/-- Directly cancelling a valid token makes it observed-cancelled. -/
theorem TokenStore.isCancelled_cancelToken_self (st : TokenStore) (t : Nat)
    (ht : t < st.tokens.length) :
    (st.cancelToken t).isCancelled t = true := by
  have he : st.tokens[t]? = some st.tokens[t] := List.getElem?_eq_getElem ht
  have hce : (st.cancelToken t).tokens[t]? =
      some { st.tokens[t] with cancelledDirect := true } := by
    rw [TokenStore.cancelToken_getElem?, if_pos rfl, he]
    rfl
  rw [TokenStore.isCancelled, TokenStore.isCancelledFuel_succ_some _ t t _ hce]
  simp

/-- On a well-formed arena (parents strictly below children) any fuel above
the token id computes the same answer. -/
theorem TokenStore.isCancelledFuel_eq_of_lt (st : TokenStore) (hWF : st.WF) :
    ∀ x f₁ f₂, x < f₁ → x < f₂ →
      st.isCancelledFuel f₁ x = st.isCancelledFuel f₂ x := by
  intro x
  induction x using Nat.strong_induction_on with
  | _ x ih =>
    intro f₁ f₂ h₁ h₂
    obtain ⟨a, rfl⟩ : ∃ a, f₁ = a + 1 := ⟨f₁ - 1, by omega⟩
    obtain ⟨b, rfl⟩ : ∃ b, f₂ = b + 1 := ⟨f₂ - 1, by omega⟩
    cases he : st.tokens[x]? with
    | none =>
      rw [TokenStore.isCancelledFuel_succ_none st a x he,
        TokenStore.isCancelledFuel_succ_none st b x he]
    | some e =>
      rw [TokenStore.isCancelledFuel_succ_some st a x e he,
        TokenStore.isCancelledFuel_succ_some st b x e he]
      cases hpar : e.parent with
      | none => rfl
      | some pp =>
        have hpp : pp < x := hWF x e he pp hpar
        simp only [Option.elim]
        rw [ih pp hpp a b (by omega) (by omega)]

/-- Tokens that already exist are unaffected by appending a child. -/
theorem TokenStore.isCancelledFuel_childToken (st : TokenStore) (p : Nat)
    (hWF : st.WF) :
    ∀ fuel x, x < st.tokens.length →
      (st.childToken p).1.isCancelledFuel fuel x = st.isCancelledFuel fuel x := by
  intro fuel
  induction fuel with
  | zero => intro x _; rfl
  | succ f ih =>
    intro x hx
    have hgt := TokenStore.childToken_fst_getElem?_lt st p x hx
    cases he : st.tokens[x]? with
    | none =>
      rw [TokenStore.isCancelledFuel_succ_none _ f x (by rw [hgt, he]),
        TokenStore.isCancelledFuel_succ_none st f x he]
    | some e =>
      rw [TokenStore.isCancelledFuel_succ_some _ f x e (by rw [hgt, he]),
        TokenStore.isCancelledFuel_succ_some st f x e he]
      cases hpar : e.parent with
      | none => rfl
      | some pp =>
        have hpp : pp < x := hWF x e he pp hpar
        simp only [Option.elim]
        rw [ih pp (Nat.lt_trans hpp hx)]

/-- Tokens that already exist are unaffected by appending a child
(`isCancelled` form). -/
theorem TokenStore.isCancelled_childToken_lt (st : TokenStore) (p x : Nat)
    (hWF : st.WF) (hx : x < st.tokens.length) :
    (st.childToken p).1.isCancelled x = st.isCancelled x :=
  TokenStore.isCancelledFuel_childToken st p hWF (x + 1) x hx

/-- A live parentless token is not observed cancelled. -/
theorem TokenStore.isCancelled_of_root_entry (st : TokenStore) (r : Nat)
    (he : st.tokens[r]? = some { parent := none, cancelledDirect := false }) :
    st.isCancelled r = false := by
  rw [TokenStore.isCancelled, TokenStore.isCancelledFuel_succ_some st r r _ he]
  simp [Option.elim]

/-- A freshly derived child of an uncancelled parent is itself uncancelled. -/
theorem TokenStore.isCancelled_childToken_new (st : TokenStore) (p : Nat)
    (hWF : st.WF) (hp : p < st.tokens.length)
    (hpc : st.isCancelled p = false) :
    (st.childToken p).1.isCancelled (st.childToken p).2 = false := by
  rw [TokenStore.childToken_snd, TokenStore.isCancelled,
    TokenStore.isCancelledFuel_succ_some _ st.tokens.length st.tokens.length _
      (TokenStore.childToken_fst_getElem?_new st p)]
  simp only [Option.elim, Bool.false_or]
  have hWF' := hWF.childToken p hp
  have h₁ : (st.childToken p).1.isCancelledFuel st.tokens.length p =
      (st.childToken p).1.isCancelled p :=
    TokenStore.isCancelledFuel_eq_of_lt _ hWF' p _ _ hp (by omega)
  rw [h₁, TokenStore.isCancelled_childToken_lt st p p hWF hp, hpc]

/-! ## Worker-lifecycle lemmas -/

theorem WorkerSys.stop_cancel_token_root (w : WorkerSys) :
    w.stop.cancel_token_root = w.cancel_token_root := by
  cases h : w.current_token <;> simp [WorkerSys.stop, h]

theorem WorkerSys.stop_timezone (w : WorkerSys) :
    w.stop.timezone = w.timezone := by
  cases h : w.current_token <;> simp [WorkerSys.stop, h]

theorem WorkerSys.stop_current_token (w : WorkerSys) :
    w.stop.current_token = w.current_token := by
  cases h : w.current_token <;> simp [WorkerSys.stop, h]

theorem WorkerSys.stop_loops (w : WorkerSys) :
    w.stop.loops = w.loops := by
  cases h : w.current_token <;> simp [WorkerSys.stop, h]

theorem WorkerSys.stop_store_length (w : WorkerSys) :
    w.stop.store.tokens.length = w.store.tokens.length := by
  cases h : w.current_token <;>
    simp [WorkerSys.stop, h, TokenStore.cancelToken_length]

theorem WorkerSys.stop_of_none {w : WorkerSys} (h : w.current_token = none) :
    w.stop = w := by
  simp [WorkerSys.stop, h]

theorem WorkerSys.stop_of_some {w : WorkerSys} {t : Nat}
    (h : w.current_token = some t) :
    w.stop = { w with store := w.store.cancelToken t } := by
  simp [WorkerSys.stop, h]

theorem WorkerSys.stop_cancels_current (w : WorkerSys) (t : Nat)
    (hc : w.current_token = some t) (ht : t < w.store.tokens.length) :
    w.stop.store.isCancelled t = true := by
  rw [WorkerSys.stop_of_some hc]
  exact TokenStore.isCancelled_cancelToken_self w.store t ht

theorem WorkerSys.stop_mono_cancelled (w : WorkerSys) (l : Nat)
    (h : w.store.isCancelled l = true) :
    w.stop.store.isCancelled l = true := by
  cases hc : w.current_token with
  | none => rw [WorkerSys.stop_of_none hc]; exact h
  | some t =>
    rw [WorkerSys.stop_of_some hc]
    exact TokenStore.isCancelledFuel_cancelToken_mono w.store t (l + 1) l h

/-- After `stop`, every loop token the Worker ever spawned is cancelled. -/
theorem WorkerSys.Inv.stop_all_cancelled {w : WorkerSys} (h : w.Inv) :
    ∀ l ∈ w.loops, w.stop.store.isCancelled l = true := by
  obtain ⟨hWF, hroot, hcur, hloops, hnd⟩ := h
  intro l hl
  obtain ⟨hrl, hll, hdisj⟩ := hloops l hl
  cases hdisj with
  | inl hc => exact WorkerSys.stop_cancels_current w l hc hll
  | inr hc => exact WorkerSys.stop_mono_cancelled w l hc

theorem WorkerSys.Inv.stop {w : WorkerSys} (h : w.Inv) : w.stop.Inv := by
  obtain ⟨hWF, hroot, hcur, hloops, hnd⟩ := h
  cases hc : w.current_token with
  | none => rw [WorkerSys.stop_of_none hc]; exact ⟨hWF, hroot, hcur, hloops, hnd⟩
  | some t =>
    rw [WorkerSys.stop_of_some hc]
    obtain ⟨hrt, htl⟩ := hcur t hc
    refine ⟨hWF.cancelToken t, ?_, ?_, ?_, hnd⟩
    · show (w.store.cancelToken t).tokens[w.cancel_token_root]? = _
      rw [TokenStore.cancelToken_getElem?, if_neg (by omega)]
      exact hroot
    · intro u hu
      show w.cancel_token_root < u ∧ u < (w.store.cancelToken t).tokens.length
      rw [TokenStore.cancelToken_length]
      exact hcur u hu
    · intro l hl
      obtain ⟨h₁, h₂, h₃⟩ := hloops l hl
      refine ⟨h₁, ?_, ?_⟩
      · show l < (w.store.cancelToken t).tokens.length
        rw [TokenStore.cancelToken_length]
        exact h₂
      · cases h₃ with
        | inl he => exact Or.inl he
        | inr he =>
          exact Or.inr
            (TokenStore.isCancelledFuel_cancelToken_mono w.store t (l + 1) l he)

theorem WorkerSys.try_schedule_error {w : WorkerSys}
    {source : AsyncScheduler → Except Err AsyncScheduler} {e : Err}
    (hsrc : source (AsyncScheduler.with_tz w.timezone) = .error e) :
    w.try_schedule source = (w.stop, .error e) := by
  simp [WorkerSys.try_schedule, WorkerSys.stop_timezone, hsrc]

theorem WorkerSys.try_schedule_ok {w : WorkerSys}
    {source : AsyncScheduler → Except Err AsyncScheduler} {r : AsyncScheduler}
    (hsrc : source (AsyncScheduler.with_tz w.timezone) = .ok r) :
    w.try_schedule source =
      ({ w.stop with
          store := (w.stop.store.childToken w.stop.cancel_token_root).1
          current_token :=
            some (w.stop.store.childToken w.stop.cancel_token_root).2
          loops :=
            w.stop.loops ++
              [(w.stop.store.childToken w.stop.cancel_token_root).2] },
        .ok ()) := by
  simp [WorkerSys.try_schedule, WorkerSys.stop_timezone, hsrc,
    TokenStore.childToken]

theorem WorkerSys.Inv.root_lt {w : WorkerSys} (h : w.Inv) :
    w.cancel_token_root < w.store.tokens.length := by
  obtain ⟨_, hroot, _, _, _⟩ := h
  by_contra hge
  rw [List.getElem?_eq_none (Nat.le_of_not_lt hge)] at hroot
  exact absurd hroot (by simp)

theorem WorkerSys.Inv.try_schedule {w : WorkerSys} (h : w.Inv)
    (source : AsyncScheduler → Except Err AsyncScheduler) :
    (w.try_schedule source).1.Inv := by
  cases hsrc : source (AsyncScheduler.with_tz w.timezone) with
  | error e =>
    rw [WorkerSys.try_schedule_error hsrc]
    exact h.stop
  | ok r =>
    rw [WorkerSys.try_schedule_ok hsrc]
    have hall := h.stop_all_cancelled
    have hs := h.stop
    obtain ⟨hWF, hroot, hcur, hloops, hnd⟩ := hs
    have hrtlen : w.stop.cancel_token_root < w.stop.store.tokens.length := by
      by_contra hge
      rw [List.getElem?_eq_none (Nat.le_of_not_lt hge)] at hroot
      exact absurd hroot (by simp)
    have hsnd : (w.stop.store.childToken w.stop.cancel_token_root).2 =
        w.stop.store.tokens.length :=
      TokenStore.childToken_snd _ _
    have hlen : (w.stop.store.childToken w.stop.cancel_token_root).1.tokens.length =
        w.stop.store.tokens.length + 1 :=
      TokenStore.childToken_fst_length _ _
    refine ⟨hWF.childToken _ hrtlen, ?_, ?_, ?_, ?_⟩
    · show (w.stop.store.childToken w.stop.cancel_token_root).1.tokens[w.stop.cancel_token_root]? = _
      rw [TokenStore.childToken_fst_getElem?_lt _ _ _ hrtlen]
      exact hroot
    · intro t ht
      rw [Option.some_inj] at ht
      constructor
      · show w.stop.cancel_token_root < t
        omega
      · show t < (w.stop.store.childToken w.stop.cancel_token_root).1.tokens.length
        omega
    · intro l hl
      rw [List.mem_append] at hl
      cases hl with
      | inl hold =>
        rw [WorkerSys.stop_loops] at hold
        obtain ⟨h₁, h₂, _⟩ := hloops l (by rw [WorkerSys.stop_loops]; exact hold)
        refine ⟨h₁, ?_, Or.inr ?_⟩
        · show l <
            (w.stop.store.childToken w.stop.cancel_token_root).1.tokens.length
          omega
        · show (w.stop.store.childToken w.stop.cancel_token_root).1.isCancelled l = true
          rw [TokenStore.isCancelled_childToken_lt _ _ _ hWF h₂]
          exact hall l hold
      | inr hnew =>
        rw [List.mem_singleton] at hnew
        subst hnew
        refine ⟨?_, ?_, Or.inl rfl⟩
        · show w.stop.cancel_token_root <
            (w.stop.store.childToken w.stop.cancel_token_root).2
          omega
        · show (w.stop.store.childToken w.stop.cancel_token_root).2 <
            (w.stop.store.childToken w.stop.cancel_token_root).1.tokens.length
          omega
    · show (w.stop.loops ++ [(w.stop.store.childToken w.stop.cancel_token_root).2]).Nodup
      rw [List.nodup_append]
      refine ⟨hnd, List.nodup_singleton _, ?_⟩
      intro a ha hb
      rw [List.mem_singleton] at hb
      obtain ⟨_, h₂, _⟩ := hloops a ha
      omega

theorem WorkerSys.new_Inv (tz : Tz) : (WorkerSys.new tz).Inv := by
  refine ⟨TokenStore.withRoot_WF, ?_, ?_, ?_, ?_⟩
  · rfl
  · intro t ht
    simp [WorkerSys.new] at ht
  · intro l hl
    simp [WorkerSys.new] at hl
  · simp [WorkerSys.new]

theorem WorkerSys.runOps_Inv {w : WorkerSys} (h : w.Inv) :
    ∀ ops : List WorkerOp, (w.runOps ops).Inv := by
  intro ops
  induction ops generalizing w with
  | nil => exact h
  | cons op rest ih =>
    cases op with
    | trySchedule source => exact ih (h.try_schedule source)
    | stop => exact ih h.stop

/-- A duplicate-free list whose members are all one value has length at most
one. -/
theorem nodup_length_le_one_of_all_eq {l : List Nat} (hnd : l.Nodup) (t : Nat)
    (h : ∀ x ∈ l, x = t) : l.length ≤ 1 := by
  match l with
  | [] => simp
  | [a] => simp
  | a :: b :: rest =>
    have ha := h a (List.mem_cons_self a (b :: rest))
    have hb := h b (by simp)
    rw [List.nodup_cons] at hnd
    exact absurd (by rw [ha, hb]; exact List.mem_cons_self t rest) hnd.1

/-- Under the invariant, at most one spawned tick loop is uncancelled. -/
theorem WorkerSys.Inv.runningLoops_length_le_one {w : WorkerSys} (h : w.Inv) :
    w.runningLoops.length ≤ 1 := by
  obtain ⟨hWF, hroot, hcur, hloops, hnd⟩ := h
  cases hc : w.current_token with
  | none =>
    have hnil : w.runningLoops = [] := by
      rw [WorkerSys.runningLoops, List.filter_eq_nil_iff]
      intro l hl
      obtain ⟨_, _, h₃⟩ := hloops l hl
      cases h₃ with
      | inl he => rw [hc] at he; exact absurd he (by simp)
      | inr he => simp [he]
    simp [hnil]
  | some t =>
    apply nodup_length_le_one_of_all_eq (hnd.filter _) t
    intro x hx
    unfold WorkerSys.runningLoops at hx
    rw [List.mem_filter] at hx
    obtain ⟨hxl, hxc⟩ := hx
    obtain ⟨_, _, h₃⟩ := hloops x hxl
    cases h₃ with
    | inl he =>
      rw [hc, Option.some_inj] at he
      exact he.symm
    | inr he =>
      rw [he] at hxc
      simp at hxc

/-- Under the invariant, after `stop` no loop is left running. -/
theorem WorkerSys.Inv.stop_runningLoops {w : WorkerSys} (h : w.Inv) :
    w.stop.runningLoops = [] := by
  unfold WorkerSys.runningLoops
  rw [List.filter_eq_nil_iff]
  intro l hl
  rw [WorkerSys.stop_loops] at hl
  simp [h.stop_all_cancelled l hl]

/-! ## Compiler and watcher helper lemmas -/

theorem TokenStore.cancelToken_eq_of_some {st : TokenStore} {t : Nat}
    {e : TokenEntry} (he : st.tokens[t]? = some e) :
    st.cancelToken t =
      { tokens := st.tokens.set t { e with cancelledDirect := true } } := by
  unfold TokenStore.cancelToken
  rw [he]

theorem TokenStore.cancelToken_idem (st : TokenStore) (t : Nat) :
    (st.cancelToken t).cancelToken t = st.cancelToken t := by
  cases he : st.tokens[t]? with
  | none =>
    have h₁ : st.cancelToken t = st := by
      unfold TokenStore.cancelToken
      rw [he]
    rw [h₁, h₁]
  | some e =>
    have ht : t < st.tokens.length := by
      by_contra hge
      rw [List.getElem?_eq_none (Nat.le_of_not_lt hge)] at he
      exact absurd he (by simp)
    rw [TokenStore.cancelToken_eq_of_some he]
    have he₂ : ({ tokens := st.tokens.set t { e with cancelledDirect := true } } :
        TokenStore).tokens[t]? = some { e with cancelledDirect := true } :=
      List.getElem?_set_self (by simpa using ht)
    rw [TokenStore.cancelToken_eq_of_some he₂]
    simp [List.set_set]

theorem new_job_from_config_length (s : AsyncScheduler)
    (c : ScheduleConfiguration) :
    (new_job_from_config s c).jobs.length = s.jobs.length + 1 := by
  unfold new_job_from_config
  cases c.adjustment <;> simp

theorem podcast_register_fold_length (ps : List Podcast) :
    ∀ s : AsyncScheduler,
      (ps.foldl
        (fun s podcast =>
          match podcast.update_schedule with
          | some run => new_job_from_config s run
          | none => s)
        s).jobs.length =
      s.jobs.length + (ps.filterMap Podcast.update_schedule).length := by
  induction ps with
  | nil => intro s; simp
  | cons p rest ih =>
    intro s
    rw [List.foldl_cons, List.filterMap_cons]
    cases hu : p.update_schedule with
    | none => simp only [hu]; rw [ih s]
    | some run =>
      simp only [hu]
      rw [ih (new_job_from_config s run), new_job_from_config_length]
      simp
      omega

theorem tickLoopTrace_all_elapsed (evs : List TickEvent)
    (h : ∀ x ∈ evs, x = TickEvent.elapsed) :
    tickLoopTrace evs = evs.map fun _ => LoopAction.advance := by
  induction evs with
  | nil => rfl
  | cons x rest ih =>
    have hx := h x (List.mem_cons_self x rest)
    subst hx
    rw [tickLoopTrace, List.map_cons, ih fun y hy => h y (by simp [hy])]

/-! ## Sibling-isolation lemmas -/

/-- For a token whose parent is parentless, cancellation is decided entirely
by those two entries. -/
theorem TokenStore.isCancelled_depth2 (st : TokenStore) (l p : Nat)
    (e ep : TokenEntry) (hl : st.tokens[l]? = some e)
    (hparent : e.parent = some p) (hp : st.tokens[p]? = some ep)
    (hpp : ep.parent = none) (h0 : 0 < l) :
    st.isCancelled l = (e.cancelledDirect || ep.cancelledDirect) := by
  obtain ⟨k, rfl⟩ : ∃ k, l = k + 1 := ⟨l - 1, by omega⟩
  rw [TokenStore.isCancelled,
    TokenStore.isCancelledFuel_succ_some st (k + 1) (k + 1) e hl, hparent]
  simp only [Option.elim]
  rw [TokenStore.isCancelledFuel_succ_some st k p ep hp, hpp]
  simp [Option.elim]

/-- Two arenas that agree on a depth-one token's entry and its root's entry
agree on that token's cancellation status. -/
theorem TokenStore.isCancelled_eq_of_entries (st st' : TokenStore) (l p : Nat)
    (e ep : TokenEntry)
    (hl : st.tokens[l]? = some e) (hl' : st'.tokens[l]? = some e)
    (hparent : e.parent = some p)
    (hp : st.tokens[p]? = some ep) (hp' : st'.tokens[p]? = some ep)
    (hpp : ep.parent = none) (h0 : 0 < l) :
    st'.isCancelled l = st.isCancelled l := by
  rw [TokenStore.isCancelled_depth2 st l p e ep hl hparent hp hpp h0,
    TokenStore.isCancelled_depth2 st' l p e ep hl' hparent hp' hpp h0]

theorem WorkerHandle.stop_snd (st : TokenStore) (w : WorkerHandle) :
    (WorkerHandle.stop st w).2 = w := by
  cases h : w.current_token <;> simp [WorkerHandle.stop, h]

theorem WorkerHandle.stop_fst_of_none {st : TokenStore} {w : WorkerHandle}
    (h : w.current_token = none) : (WorkerHandle.stop st w).1 = st := by
  simp [WorkerHandle.stop, h]

theorem WorkerHandle.stop_fst_of_some {st : TokenStore} {w : WorkerHandle}
    {t : Nat} (h : w.current_token = some t) :
    (WorkerHandle.stop st w).1 = st.cancelToken t := by
  simp [WorkerHandle.stop, h]

theorem WorkerHandle.stop_fst_length (st : TokenStore) (w : WorkerHandle) :
    (WorkerHandle.stop st w).1.tokens.length = st.tokens.length := by
  cases h : w.current_token with
  | none => rw [WorkerHandle.stop_fst_of_none h]
  | some t =>
    rw [WorkerHandle.stop_fst_of_some h, TokenStore.cancelToken_length]

theorem WorkerHandle.try_schedule_fst_error {st : TokenStore}
    {w : WorkerHandle} {source : AsyncScheduler → Except Err AsyncScheduler}
    {e : Err} (hsrc : source (AsyncScheduler.with_tz w.timezone) = .error e) :
    WorkerHandle.try_schedule st w source = (WorkerHandle.stop st w, .error e) := by
  simp [WorkerHandle.try_schedule, WorkerHandle.stop_snd, hsrc]

theorem WorkerHandle.try_schedule_fst_ok {st : TokenStore}
    {w : WorkerHandle} {source : AsyncScheduler → Except Err AsyncScheduler}
    {r : AsyncScheduler}
    (hsrc : source (AsyncScheduler.with_tz w.timezone) = .ok r) :
    WorkerHandle.try_schedule st w source =
      ((((WorkerHandle.stop st w).1.childToken w.cancel_token_root).1,
        { w with
            current_token :=
              some ((WorkerHandle.stop st w).1.childToken w.cancel_token_root).2
            loops :=
              w.loops ++
                [((WorkerHandle.stop st w).1.childToken w.cancel_token_root).2] }),
       .ok ()) := by
  simp [WorkerHandle.try_schedule, WorkerHandle.stop_snd, hsrc]

/-- A rebuild on Worker `wA` — whether its builder fails or succeeds — leaves
every sibling Worker `wB`'s running loops exactly as they were: `stop` only
cancels `wA`'s own child token (never `wB`'s tokens, never the shared root)
and a success only appends a fresh token. -/
theorem WorkerHandle.try_schedule_isolated (st : TokenStore)
    (wA wB : WorkerHandle)
    (source : AsyncScheduler → Except Err AsyncScheduler)
    (hB : SiblingLoops st wA wB) :
    WorkerHandle.runningLoops
        ((WorkerHandle.try_schedule st wA source).1).1 wB =
      WorkerHandle.runningLoops st wB := by
  unfold WorkerHandle.runningLoops
  apply List.filter_congr
  intro l hl
  obtain ⟨p, e, ep, hle, hpar, hpe, hpp, h0, hllen, hplen, hA⟩ := hB l hl
  have hstop_l : (WorkerHandle.stop st wA).1.tokens[l]? = some e := by
    cases hc : wA.current_token with
    | none => rw [WorkerHandle.stop_fst_of_none hc]; exact hle
    | some tA =>
      obtain ⟨hne_l, _⟩ := hA tA hc
      rw [WorkerHandle.stop_fst_of_some hc, TokenStore.cancelToken_getElem?,
        if_neg fun hh => hne_l hh.symm]
      exact hle
  have hstop_p : (WorkerHandle.stop st wA).1.tokens[p]? = some ep := by
    cases hc : wA.current_token with
    | none => rw [WorkerHandle.stop_fst_of_none hc]; exact hpe
    | some tA =>
      obtain ⟨_, hne_p⟩ := hA tA hc
      rw [WorkerHandle.stop_fst_of_some hc, TokenStore.cancelToken_getElem?,
        if_neg fun hh => hne_p hh.symm]
      exact hpe
  have hpres : ((WorkerHandle.try_schedule st wA source).1).1.isCancelled l =
      st.isCancelled l := by
    cases hsrc : source (AsyncScheduler.with_tz wA.timezone) with
    | error err =>
      rw [WorkerHandle.try_schedule_fst_error hsrc]
      exact TokenStore.isCancelled_eq_of_entries st _ l p e ep hle hstop_l
        hpar hpe hstop_p hpp h0
    | ok r =>
      rw [WorkerHandle.try_schedule_fst_ok hsrc]
      have hl' : (((WorkerHandle.stop st wA).1.childToken
          wA.cancel_token_root).1).tokens[l]? = some e := by
        rw [TokenStore.childToken_fst_getElem?_lt _ _ _
          (by rw [WorkerHandle.stop_fst_length]; exact hllen)]
        exact hstop_l
      have hp' : (((WorkerHandle.stop st wA).1.childToken
          wA.cancel_token_root).1).tokens[p]? = some ep := by
        rw [TokenStore.childToken_fst_getElem?_lt _ _ _
          (by rw [WorkerHandle.stop_fst_length]; exact hplen)]
        exact hstop_p
      exact TokenStore.isCancelled_eq_of_entries st _ l p e ep hle hl'
        hpar hpe hp' hpp h0
  rw [hpres]

/-! ## The claims -/

/-- **C1** counterexample: the claim says a `ScheduleConfiguration` whose
adjustment list contains `Count(0)` is rejected with a ConfigurationError and
no job is registered. In the code `new_job_from_config` returns
`&mut AsyncJob` — it has no error channel and performs no validation — so
compiling the `Count(0)` configuration registers a job (with execution cap 0)
on the scheduler instead of failing. -/
theorem C1_counterexample :
    (new_job_from_config (AsyncScheduler.with_tz .utc) countZeroConfig).jobs =
      [{ cadences := [{ base := .Minutes 5, atTimes := [], offsets := [] }]
         countCap := some 0
         subCadence := none }] := by
  decide

/-- **C1** (amended): for every configuration whose adjustment list ends in
`Count(0)`, compiling it succeeds — `new_job_from_config` performs no
validation and cannot return an error — and registers exactly one additional
job, whose execution cap is 0 (a job that can never fire). -/
theorem C1_count_zero_job_registered (s : AsyncScheduler) (base : Interval)
    (pre : List Adjustment) :
    new_job_from_config s
        { base := base, adjustment := some (pre ++ [.Count 0]) } =
      { s with jobs := s.jobs ++
          [(pre.foldl applyAdjustment (AsyncJob.every base)).count 0] }
    ∧ ((pre.foldl applyAdjustment (AsyncJob.every base)).count 0).countCap =
        some 0 := by
  constructor
  · unfold new_job_from_config
    simp [List.foldl_append, applyAdjustment]
  · rfl

/-- **C2**: when the builder closure returns an error, `try_schedule`
propagates exactly that error, spawns no tick-loop task, installs no new
child token, and — having cancelled the previous loop at entry — leaves the
Worker with no loop running. -/
theorem C2_builder_error_leaves_idle (w : WorkerSys)
    (source : AsyncScheduler → Except Err AsyncScheduler) (e : Err)
    (hInv : w.Inv)
    (hsrc : source (AsyncScheduler.with_tz w.timezone) = .error e) :
    (w.try_schedule source).2 = .error e
    ∧ (w.try_schedule source).1.loops = w.loops
    ∧ (w.try_schedule source).1.current_token = w.current_token
    ∧ (w.try_schedule source).1.runningLoops = [] := by
  rw [WorkerSys.try_schedule_error hsrc]
  exact ⟨rfl, WorkerSys.stop_loops w, WorkerSys.stop_current_token w,
    hInv.stop_runningLoops⟩

/-- **C2** witness: a failing builder on a fresh Worker. -/
theorem C2_witness :
    ((WorkerSys.new .utc).try_schedule fun _ => .error .storage).2 =
        .error .storage
    ∧ ((WorkerSys.new .utc).try_schedule
        fun _ => .error .storage).1.runningLoops = [] := by
  have h := C2_builder_error_leaves_idle (WorkerSys.new .utc)
    (fun _ => .error .storage) .storage (WorkerSys.new_Inv .utc) rfl
  exact ⟨h.1, h.2.2.2⟩

/-- **C3**: at most one non-cancelled tick-loop scope exists at any time —
over every sequence of `try_schedule`/`stop` calls on a fresh Worker, at most
one spawned loop token is uncancelled — and concretely: after one successful
`try_schedule` exactly loop token 1 runs; the second call's initial `stop`
cancels it before anything is spawned; after the second successful call
exactly loop token 2 runs and token 1 is observably cancelled. -/
theorem C3_single_active_loop
    (s₁ s₂ : AsyncScheduler → Except Err AsyncScheduler)
    (r₁ r₂ : AsyncScheduler)
    (h₁ : s₁ (AsyncScheduler.with_tz Tz.utc) = .ok r₁)
    (h₂ : s₂ (AsyncScheduler.with_tz Tz.utc) = .ok r₂) :
    (∀ ops : List WorkerOp,
      (((WorkerSys.new .utc).runOps ops).runningLoops).length ≤ 1)
    ∧ ((WorkerSys.new .utc).try_schedule s₁).1.runningLoops = [1]
    ∧ (((WorkerSys.new .utc).try_schedule s₁).1.stop).runningLoops = []
    ∧ ((((WorkerSys.new .utc).try_schedule s₁).1).try_schedule
        s₂).1.runningLoops = [2]
    ∧ ((((WorkerSys.new .utc).try_schedule s₁).1).try_schedule
        s₂).1.store.isCancelled 1 = true := by
  refine ⟨fun ops =>
    (WorkerSys.runOps_Inv (WorkerSys.new_Inv .utc) ops).runningLoops_length_le_one,
    ?_⟩
  rw [WorkerSys.try_schedule_ok h₁]
  rw [WorkerSys.try_schedule_ok h₂]
  decide

/-- **C3** witness: two concrete successful rebuilds. -/
theorem C3_witness :
    ((((WorkerSys.new .utc).try_schedule fun s => .ok s).1).try_schedule
      fun s => .ok s).1.runningLoops = [2] :=
  (C3_single_active_loop (fun s => .ok s) (fun s => .ok s) _ _ rfl
    rfl).2.2.2.1

/-- **C4**: the compiler starts from the base Interval and applies the
adjustments strictly in list order with the spec's per-variant meaning (`At`
a time-of-day constraint, `Plus` a cycle-start offset, `AndEvery` an
additional independent cadence, `Count` an execution cap, `RepeatingEvery` a
sub-cadence repeated `n` times): `new_job_from_config` registers exactly the
job the spec-side left fold `specCompile` computes. -/
theorem C4_compiler_refines_spec (s : AsyncScheduler)
    (c : ScheduleConfiguration) :
    new_job_from_config s c =
      { s with jobs := s.jobs ++ [specCompile c.base (c.adjustment.getD [])] } := by
  have hstep : applyAdjustment = specApplyAdjustment := by
    funext j a
    cases a <;> rfl
  unfold new_job_from_config specCompile
  cases hc : c.adjustment with
  | none => simp [hc]
  | some adjs => simp [hc, hstep]

/-- **C5** counterexample: the claim says a failed Entity-Store read inside
the builder yields an error result rather than a silently reduced job set.
On a scan where the first entry reads and decodes fine and the second read
fails, the podcast builder returns `Ok` with one registered job: the failure
is silently dropped. -/
theorem C5_counterexample :
    (podcastBuilder demoEntries demoDecode (AsyncScheduler.with_tz .utc)).2 =
        .ok ()
    ∧ (podcastBuilder demoEntries demoDecode
        (AsyncScheduler.with_tz .utc)).1.jobs.length = 1 :=
  ⟨rfl, rfl⟩

/-- **C5** (amended): a builder error does propagate synchronously out of
`try_schedule` unchanged, and a rebuild on one Worker — failing or
succeeding — leaves every sibling Worker's active schedule untouched (its
running loops are exactly what they were); but the podcast builder itself
never produces a StoreError: it silently skips every entry whose read or
decode fails and returns `Ok` having registered exactly one job per
surviving podcast with an update schedule — a reduced job set, not an
error. -/
theorem C5_store_errors_silently_skipped
    (entries : List (Except Err (Bytes × Bytes)))
    (decode : Bytes → Option Podcast) (s : AsyncScheduler) :
    (podcastBuilder entries decode s).2 = .ok ()
    ∧ (podcastBuilder entries decode s).1.jobs.length =
        s.jobs.length +
          (((entries.filterMap Except.toOption).filterMap
              fun kv => decode kv.2).filterMap Podcast.update_schedule).length
    ∧ (∀ (w : WorkerSys) (src : AsyncScheduler → Except Err AsyncScheduler)
        (e : Err), src (AsyncScheduler.with_tz w.timezone) = .error e →
          (w.try_schedule src).2 = .error e)
    ∧ ∀ (st : TokenStore) (wA wB : WorkerHandle)
        (src : AsyncScheduler → Except Err AsyncScheduler),
        SiblingLoops st wA wB →
          WorkerHandle.runningLoops
              ((WorkerHandle.try_schedule st wA src).1).1 wB =
            WorkerHandle.runningLoops st wB := by
  refine ⟨rfl, ?_, ?_, ?_⟩
  · unfold podcastBuilder
    exact podcast_register_fold_length _ s
  · intro w src e hsrc
    rw [WorkerSys.try_schedule_error hsrc]
  · intro st wA wB src hB
    exact WorkerHandle.try_schedule_isolated st wA wB src hB

/-- **C5** witness: the propagation half at a concrete failing builder, and
the isolation half at the concrete main.rs layout — Worker A's failing
rebuild cancels only A's own child token, and the sibling Worker B keeps
exactly its running loop. -/
theorem C5_witness :
    ((WorkerSys.new .utc).try_schedule fun _ => .error .serialization).2 =
      .error .serialization
    ∧ WorkerHandle.runningLoops
        ((WorkerHandle.try_schedule demoArena demoHandleA
          fun _ => .error .storage).1).1 demoHandleB =
      WorkerHandle.runningLoops demoArena demoHandleB := by
  have h := C5_store_errors_silently_skipped demoEntries demoDecode
    (AsyncScheduler.with_tz .utc)
  refine ⟨h.2.2.1 (WorkerSys.new .utc) (fun _ => .error .serialization)
    .serialization rfl, ?_⟩
  refine h.2.2.2 demoArena demoHandleA demoHandleB
    (fun _ => .error .storage) ?_
  intro l hl
  rw [show demoHandleB.loops = [1] from rfl, List.mem_singleton] at hl
  subst hl
  refine ⟨0, { parent := some 0, cancelledDirect := false },
    { parent := none, cancelledDirect := false },
    by decide, rfl, by decide, rfl, by omega, by decide, by decide, ?_⟩
  intro tA htA
  rw [show demoHandleA.current_token = some 2 from rfl,
    Option.some_inj] at htA
  omega

/-- **C6**: over any scripted sequence of change notifications — whatever
keys and mutation kinds they carry — the watcher task calls `try_schedule`
exactly once per notification, with no batching and no deduplication
(provided the rebuilds succeed; on a failure its `expect` panics and the task
ends). -/
theorem C6_one_rebuild_per_notification (events : List ChangeEvent)
    (w : WorkerSys) (source : AsyncScheduler → Except Err AsyncScheduler)
    (hok : ∀ s, ∃ r, source s = .ok r) :
    (watchLoop source events w).2.1 = events.length
    ∧ (watchLoop source events w).2.2 = false := by
  induction events generalizing w with
  | nil => exact ⟨rfl, rfl⟩
  | cons ev rest ih =>
    obtain ⟨r, hr⟩ := hok (AsyncScheduler.with_tz w.timezone)
    rcases hpair : w.try_schedule source with ⟨w₂, res⟩
    have hsnd : (w.try_schedule source).2 = Except.ok () := by
      rw [WorkerSys.try_schedule_ok hr]
    rw [hpair] at hsnd
    simp only at hsnd
    subst hsnd
    have hih := ih w₂
    simp only [watchLoop, hpair]
    exact ⟨by rw [hih.1, List.length_cons], hih.2⟩

/-- **C6** witness: two concrete notifications with different keys and
kinds give exactly two rebuild calls. -/
theorem C6_witness :
    (watchLoop (fun s => .ok s)
      [{ key := [], kind := .insert }, { key := [0], kind := .remove }]
      (WorkerSys.new .utc)).2.1 = 2 :=
  (C6_one_rebuild_per_notification
    [{ key := [], kind := .insert }, { key := [0], kind := .remove }]
    (WorkerSys.new .utc) (fun s => .ok s) fun s => ⟨s, rfl⟩).1

/-- **C7**: each tick-loop iteration is decided by whichever comes first of
its scope's cancellation or the 1-second cadence: on the first cancellation
the task terminates having performed exactly one advance per previously
elapsed tick and never advances again; a trace with no cancellation performs
exactly one advance per elapsed tick. -/
theorem C7_tick_loop_cancellation (pre post evs : List TickEvent)
    (hpre : ∀ x ∈ pre, x = TickEvent.elapsed)
    (hevs : ∀ x ∈ evs, x = TickEvent.elapsed) :
    tickLoopTrace (pre ++ TickEvent.cancelled :: post) =
      pre.map (fun _ => LoopAction.advance) ++ [LoopAction.terminate]
    ∧ tickLoopTrace evs = evs.map fun _ => LoopAction.advance := by
  refine ⟨?_, tickLoopTrace_all_elapsed evs hevs⟩
  induction pre with
  | nil => rfl
  | cons x rest ih =>
    have hx := hpre x (List.mem_cons_self x rest)
    subst hx
    rw [List.cons_append, tickLoopTrace, List.map_cons, List.cons_append,
      ih fun y hy => hpre y (by simp [hy])]

/-- **C7** witness: one elapsed tick, then cancellation; the trace is one
advance followed by termination, with nothing after the elapsed tick that
follows the cancellation. -/
theorem C7_witness :
    tickLoopTrace [TickEvent.elapsed, TickEvent.cancelled, TickEvent.elapsed] =
      [LoopAction.advance, LoopAction.terminate] :=
  (C7_tick_loop_cancellation [TickEvent.elapsed] [TickEvent.elapsed] []
    (by intro x hx; simpa using hx) (by intro x hx; simp at hx)).1

/-- **C8**: an absent adjustment list compiles identically to an empty one,
and both register exactly the bare base job, the base Interval unmodified. -/
theorem C8_none_eq_empty_adjustments (s : AsyncScheduler) (base : Interval) :
    new_job_from_config s { base := base, adjustment := none } =
      new_job_from_config s { base := base, adjustment := some [] }
    ∧ new_job_from_config s { base := base, adjustment := none } =
      { s with jobs := s.jobs ++ [AsyncJob.every base] } :=
  ⟨rfl, rfl⟩

/-- **C9**: `stop` on a never-scheduled Worker (no current token) is a no-op
— the Worker is returned unchanged, so nothing is cancelled, nothing is
spawned, and there is no error channel to fail through — and `stop` is
idempotent on every Worker. -/
theorem C9_stop_noop_idempotent (w : WorkerSys) :
    (w.current_token = none → w.stop = w) ∧ w.stop.stop = w.stop := by
  constructor
  · exact fun h => WorkerSys.stop_of_none h
  · cases hc : w.current_token with
    | none =>
      rw [WorkerSys.stop_of_none hc, WorkerSys.stop_of_none hc]
    | some t =>
      rw [WorkerSys.stop_of_some hc]
      have hc₂ : ({ w with store := w.store.cancelToken t } :
          WorkerSys).current_token = some t := hc
      rw [WorkerSys.stop_of_some hc₂]
      show ({ w with store := (w.store.cancelToken t).cancelToken t } :
        WorkerSys) = _
      rw [TokenStore.cancelToken_idem]

/-- **C9** witness: `stop` on the freshly constructed Worker. -/
theorem C9_witness :
    (WorkerSys.new .utc).stop = WorkerSys.new .utc :=
  (C9_stop_noop_idempotent (WorkerSys.new .utc)).1 rfl

/-- **C10**: `stop` never clears the stored token field (it still holds the
now-cancelled token afterwards); a `try_schedule` whose builder fails also
leaves the field holding the previous — by then cancelled — token; only a
successful `try_schedule` replaces the field, with the freshly derived child
token. -/
theorem C10_token_field_frame (w : WorkerSys)
    (source : AsyncScheduler → Except Err AsyncScheduler) :
    w.stop.current_token = w.current_token
    ∧ (∀ t, w.current_token = some t → t < w.store.tokens.length →
        w.stop.store.isCancelled t = true)
    ∧ (∀ e, source (AsyncScheduler.with_tz w.timezone) = .error e →
        (w.try_schedule source).1.current_token = w.current_token
        ∧ ∀ t, w.current_token = some t → t < w.store.tokens.length →
            (w.try_schedule source).1.store.isCancelled t = true)
    ∧ (∀ r, source (AsyncScheduler.with_tz w.timezone) = .ok r →
        (w.try_schedule source).1.current_token =
          some w.store.tokens.length) := by
  refine ⟨WorkerSys.stop_current_token w,
    fun t ht hlt => WorkerSys.stop_cancels_current w t ht hlt, ?_, ?_⟩
  · intro e hsrc
    rw [WorkerSys.try_schedule_error hsrc]
    exact ⟨WorkerSys.stop_current_token w,
      fun t ht hlt => WorkerSys.stop_cancels_current w t ht hlt⟩
  · intro r hsrc
    rw [WorkerSys.try_schedule_ok hsrc]
    show some (w.stop.store.childToken w.stop.cancel_token_root).2 =
      some w.store.tokens.length
    rw [TokenStore.childToken_snd, WorkerSys.stop_store_length]

/-- **C10** witness: a successful rebuild on the fresh Worker stores the
fresh child token. -/
theorem C10_witness :
    ((WorkerSys.new .utc).try_schedule fun s => .ok s).1.current_token =
      some 1 :=
  (C10_token_field_frame (WorkerSys.new .utc) fun s => .ok s).2.2.2
    (AsyncScheduler.with_tz .utc) rfl

end Shinycast
